import Mathlib

/-!
# Verification of the epimysium weight-adjustment toolkit

A shallow embedding of the core of `epimysium/rra.py` and
`epimysium/dataman.py`, together with theorems settling the claims of the
specification against it.

Python floats are modelled by `ℚ`; `np.rad2deg` multiplies by the irrational
constant `180 / π`, so the error-conversion functions take that factor as an
explicit parameter `r2d`.  Python exceptions are modelled by an error type
`PyErr`, fallible code returning `Except PyErr _`.  XML documents are an
explicit tree type; `element.findall('.//tag')` is a document-order list of
the descendants (the element included) carrying the tag.
-/

/-- The Python exceptions the embedded code can raise. -/
inductive PyErr where
  /-- `TypeError`, e.g. from calling a function with the wrong number of
  positional arguments. -/
  | typeError (msg : String)
  /-- `IndexError`, e.g. from `[0]` on an empty list. -/
  | indexError
  /-- `NameError` / `UnboundLocalError`: a name referenced but never bound. -/
  | nameError (name : String)
  /-- `KeyError` from a dict lookup. -/
  | keyError (key : String)
  /-- `AttributeError`, e.g. `.strip()` on `None`. -/
  | attributeError
  /-- A generically raised `Exception(msg)`. -/
  | exceptionMsg (msg : String)
deriving DecidableEq

/-!
String primitives used by the embedded code, implemented over the string's
character list (Lean's built-in `String` functions are opaque to kernel
reduction, so concrete instances could not otherwise be evaluated inside
proofs).
-/

/-- Python's `s.startswith(pre)`. -/
def pyStartsWith (s pre : String) : Bool := pre.toList.isPrefixOf s.toList

/-- Python's `s.endswith(suf)`. -/
def pyEndsWith (s suf : String) : Bool := suf.toList.isSuffixOf s.toList

/-- Whether `sub` occurs in `s` — the test `s.count(sub) != 0` of
`storage2numpy` (the count itself is not needed, only its non-zeroness). -/
def containsSub (sub s : String) : Bool :=
  s.toList.tails.any (fun t => sub.toList.isPrefixOf t)

/-- Python's `s.lstrip()`: leading whitespace removed. -/
def pyLStrip (s : String) : String :=
  String.mk (s.toList.dropWhile Char.isWhitespace)

/-- Python's `s.rstrip()`: trailing whitespace removed. -/
def pyRStrip (s : String) : String :=
  String.mk ((s.toList.reverse.dropWhile Char.isWhitespace).reverse)

/-- Python's `s.strip()`. -/
def pyStrip (s : String) : String := pyRStrip (pyLStrip s)

/-- Replace the leftmost occurrence of `pat` at each position, skipping the
matched characters (Python's non-overlapping left-to-right `str.replace`).
The fuel is an upper bound on the scan steps; each step consumes at least
one character, so the input's length suffices. -/
def pyReplaceAux (pat rep : List Char) : Nat → List Char → List Char
  | _, [] => []
  | 0, s => s
  | fuel + 1, c :: cs =>
    if pat.isPrefixOf (c :: cs) ∧ pat ≠ [] then
      rep ++ pyReplaceAux pat rep fuel ((c :: cs).drop pat.length)
    else c :: pyReplaceAux pat rep fuel cs

/-- Python's `s.replace(pat, rep)` (for the non-empty patterns the embedded
code uses). -/
def pyReplace (s pat rep : String) : String :=
  String.mk (pyReplaceAux pat.toList rep.toList s.toList.length s.toList)

/-- An XML element: tag, attribute dictionary, text content (`None` or a
string), and child elements.  Comments and tails are irrelevant to the
claims and are not modelled. -/
inductive Xml where
  | node (tag : String) (attrs : List (String × String)) (text : Option String)
      (children : List Xml)

/-- The element's tag. -/
def Xml.tagOf : Xml → String
  | .node t _ _ _ => t

/-- The element's `.text` (an `Option`, as ElementTree's text may be `None`). -/
def Xml.textOf : Xml → Option String
  | .node _ _ tx _ => tx

/-- The element's `.attrib` dictionary. -/
def Xml.attrsOf : Xml → List (String × String)
  | .node _ a _ _ => a

/-- The element's children. -/
def Xml.childrenOf : Xml → List Xml
  | .node _ _ _ cs => cs

/-- The element with its `.text` overwritten (the effect of
`element.text = new`). -/
def Xml.withText (new : String) : Xml → Xml
  | .node t a _ cs => .node t a (some new) cs

mutual

/-- `element.findall('.//tag')` over the tree `x` itself: every element of
the subtree rooted at `x` (the root included) whose tag is `tag`, in
document order. -/
def findall (tag : String) : Xml → List Xml
  | .node t a tx cs =>
    (if t = tag then [Xml.node t a tx cs] else []) ++ findallList tag cs

/-- `findall` over a list of sibling subtrees, concatenated in order. -/
def findallList (tag : String) : List Xml → List Xml
  | [] => []
  | c :: cs => findall tag c ++ findallList tag cs

end

mutual

/-- Overwrite the `.text` of the first element (in document order) of the
subtree rooted at `x` whose tag is `tag`; `none` when the subtree holds no
such element.  This is the effect of `xml.findall('.//tag')[0].text = new`
on the tree. -/
def setFirstText (tag new : String) : Xml → Option Xml
  | .node t a tx cs =>
    if t = tag then some (Xml.node t a (some new) cs)
    else (setFirstTextList tag new cs).map (Xml.node t a tx)

/-- `setFirstText` over a list of sibling subtrees: rewrites the first
subtree that holds a match, keeps the rest. -/
def setFirstTextList (tag new : String) : List Xml → Option (List Xml)
  | [] => none
  | c :: cs =>
    match setFirstText tag new c with
    | some c' => some (c' :: cs)
    | none => (setFirstTextList tag new cs).map (c :: ·)

end

/-- The read accessor pattern `xml.findall('.//tag')[0].text` of
`dataman.copy_cmc_inputs.valid_path` and `rra.select_rra_task_weights`:
`[0]` on the match list raises `IndexError` when the list is empty,
otherwise the first match's text is read. -/
def xmlFirstText (tag : String) (doc : Xml) : Except PyErr (Option String) :=
  match findall tag doc with
  | [] => .error .indexError
  | e :: _ => .ok e.textOf

/-- The write accessor pattern `xml.findall('.//tag')[0].text = new` of
`dataman.copy_cmc_inputs.edit_field`: `IndexError` on an empty match list,
otherwise the first match's text is overwritten in place. -/
def xmlSetFirstText (tag new : String) (doc : Xml) : Except PyErr Xml :=
  match setFirstText tag new doc with
  | none => .error .indexError
  | some doc' => .ok doc'

mutual

theorem setFirstText_eq_none_iff (tag new : String) (x : Xml) :
    setFirstText tag new x = none ↔ findall tag x = [] := by
  cases x with
  | node t a tx cs =>
    by_cases h : t = tag
    · simp [setFirstText, findall, h]
    · simp [setFirstText, findall, h, Option.map_eq_none',
        setFirstTextList_eq_none_iff tag new cs]

theorem setFirstTextList_eq_none_iff (tag new : String) (cs : List Xml) :
    setFirstTextList tag new cs = none ↔ findallList tag cs = [] := by
  cases cs with
  | nil => simp [setFirstTextList, findallList]
  | cons c cs =>
    cases hc : setFirstText tag new c with
    | some c' =>
      have : findall tag c ≠ [] := by
        intro he
        rw [← setFirstText_eq_none_iff tag new] at he
        rw [hc] at he
        exact Option.noConfusion he
      simp [setFirstTextList, hc, findallList, this]
    | none =>
      have hfc : findall tag c = [] := (setFirstText_eq_none_iff tag new c).mp hc
      simp [setFirstTextList, hc, findallList, hfc, Option.map_eq_none',
        setFirstTextList_eq_none_iff tag new cs]

end

mutual

theorem findall_setFirstText (tag new : String) (x : Xml) (e : Xml)
    (rest : List Xml) (h : findall tag x = e :: rest) :
    ∃ x', setFirstText tag new x = some x' ∧
      findall tag x' = e.withText new :: rest := by
  cases x with
  | node t a tx cs =>
    by_cases ht : t = tag
    · subst ht
      refine ⟨Xml.node t a (some new) cs, by simp [setFirstText], ?_⟩
      simp only [findall, if_pos rfl] at h ⊢
      have he : Xml.node t a tx cs = e := by
        simpa using congrArg (fun l => l.head?) h
      have hrest : findallList t cs = rest := by
        simpa using congrArg (fun l => l.tail) h
      simp [← he, ← hrest, Xml.withText]
    · simp only [findall, ht, if_neg ht, List.nil_append] at h
      obtain ⟨cs', hcs', hfall⟩ := findallList_setFirstTextList tag new cs e rest h
      exact ⟨Xml.node t a tx cs', by simp [setFirstText, ht, hcs'],
        by simp [findall, ht, hfall]⟩

theorem findallList_setFirstTextList (tag new : String) (cs : List Xml)
    (e : Xml) (rest : List Xml) (h : findallList tag cs = e :: rest) :
    ∃ cs', setFirstTextList tag new cs = some cs' ∧
      findallList tag cs' = e.withText new :: rest := by
  cases cs with
  | nil => simp [findallList] at h
  | cons c cs =>
    simp only [findallList] at h
    cases hfc : findall tag c with
    | nil =>
      have hsc : setFirstText tag new c = none :=
        (setFirstText_eq_none_iff tag new c).mpr hfc
      rw [hfc, List.nil_append] at h
      obtain ⟨cs', hcs', hfall⟩ := findallList_setFirstTextList tag new cs e rest h
      refine ⟨c :: cs', ?_, ?_⟩
      · simp [setFirstTextList, hsc, hcs']
      · simp [findallList, hfc, hfall]
    | cons f fs =>
      rw [hfc] at h
      have hef : f = e := by simpa using congrArg (fun l => l.head?) h
      have hrest : fs ++ findallList tag cs = rest := by
        simpa using congrArg (fun l => l.tail) h
      obtain ⟨c', hc', hfall⟩ :=
        findall_setFirstText tag new c f fs hfc
      refine ⟨c' :: cs, ?_, ?_⟩
      · simp [setFirstTextList, hc']
      · simp [findallList, hfall, ← hef, ← hrest]

end

/-!
## The storage-file reader: `dataman.storage2numpy`

A storage file is modelled as its list of lines.  The reader scans for the
first line containing the sentinel `'endheader'` (`line.count('endheader')
!= 0`, with `break`); if no line contains it, the local
`line_number_of_line_containing_endheader` is never assigned and the
`np.genfromtxt` call raises `NameError` (an unbound local).  Otherwise
`np.genfromtxt(names=True, skip_header=i+1)` drops the lines up to and
including the sentinel, takes the next non-blank line's whitespace-separated
tokens as the column names, and parses the remaining non-blank lines as
whitespace-separated numbers.  The float grammar itself is a parameter
`parseFloat`; `#`-comment stripping is not modelled (storage files carry
no comments and no claim concerns them).
-/

/-- The 0-based index of the first line containing `'endheader'`
(the loop of `storage2numpy` with its `break`; its test is
`line.count('endheader') != 0`, i.e. the sentinel occurs in the line). -/
def endheaderIndex (lines : List String) : Option Nat :=
  lines.findIdx? (fun l => containsSub "endheader" l)

/-- The tokens of a line, split on runs of whitespace (how `np.genfromtxt`
splits an unquoted whitespace-delimited row). -/
def wsTokens (l : String) : List String :=
  ((l.toList.splitOnP (fun c => c.isWhitespace)).filter (· ≠ [])).map
    (fun cs => String.mk cs)

/-- The named-column array `np.genfromtxt(..., names=True, ...)` returns:
the column names and the data rows. -/
structure StoData where
  names : List String
  rows : List (List ℚ)
deriving DecidableEq

/-- Indexing the result by column name (`data['ground_force_vy']`):
the column of the first name equal to `name`, `none` when the name is
absent. -/
def StoData.col (d : StoData) (name : String) : Option (List ℚ) :=
  (d.names.indexOf? name).map (fun j => d.rows.map (fun r => r.getD j 0))

/-- `dataman.storage2numpy`, on the file's lines.  `parseFloat` is the
float grammar of `np.genfromtxt`. -/
def storage2numpy (parseFloat : String → ℚ) (lines : List String) :
    Except PyErr StoData :=
  match endheaderIndex lines with
  | none =>
    -- The for loop ended without `break`: the local holding the line number
    -- was never assigned, so referencing it raises an unbound-local error.
    .error (.nameError "line_number_of_line_containing_endheader")
  | some i =>
    let line_number_of_line_containing_endheader := i + 1
    -- np.genfromtxt(names=True, skip_header=...): blank lines are ignored;
    -- the first remaining line names the columns, the rest are data.
    match (lines.drop line_number_of_line_containing_endheader).filter
        (fun l => wsTokens l ≠ []) with
    | [] => .error (.exceptionMsg "genfromtxt: no data")
    | nameLine :: dataLines =>
      .ok ⟨wsTokens nameLine, dataLines.map (fun l => (wsTokens l).map parseFloat)⟩

/-- A stand-in instantiation of the float grammar, used to evaluate the
model at concrete inputs whose numeric values are irrelevant. -/
def parseFloat0 : String → ℚ := fun _ => 0

theorem findIdx?_eq_some_of_first {α : Type} (p : α → Bool) (l : List α)
    (k : Nat) (x : α) (hk : l.get? k = some x) (hp : p x = true)
    (hfirst : ∀ j, j < k → ∀ y, l.get? j = some y → p y = false) :
    l.findIdx? p = some k := by
  induction l generalizing k with
  | nil => simp at hk
  | cons a l ih =>
    cases k with
    | zero =>
      simp only [List.get?, Option.some.injEq] at hk
      subst hk
      simp [List.findIdx?_cons, hp]
    | succ k =>
      have ha : p a = false := hfirst 0 (Nat.succ_pos k) a rfl
      have hstep : ∀ j, j < k → ∀ y, l.get? j = some y → p y = false :=
        fun j hj y hy => hfirst (j + 1) (Nat.succ_lt_succ hj) y (by simpa using hy)
      have hind := ih k (by simpa using hk) hstep
      rw [List.findIdx?_cons, if_neg (by simp [ha]), List.findIdx?_succ, hind]
      rfl

/-!
## The input bundler's path resolution: `dataman.copy_cmc_inputs.valid_path`

The filesystem is a predicate `pexists : String → Bool` (`os.path.exists`);
`replace` is the caller's substitution dict as an association list in
iteration order.  The POSIX `os.path` operations used by the source are
translated from CPython's `posixpath`.
-/

/-- `path.rfind('/') + 1` over the characters: one past the rightmost slash,
`0` when there is none (the split point of `posixpath.split`). -/
def lastSlashSucc : List Char → Nat
  | [] => 0
  | c :: cs =>
    let r := lastSlashSucc cs
    if r > 0 then r + 1 else if c = '/' then 1 else 0

/-- `posixpath.split(p)`: head and tail around the last slash, the head
right-stripped of slashes unless it is all slashes. -/
def os_path_split (p : String) : String × String :=
  let cs := p.toList
  let i := lastSlashSucc cs
  let head := cs.take i
  let tail := cs.drop i
  let head :=
    if head ≠ [] ∧ head.any (· ≠ '/') then
      (head.reverse.dropWhile (· = '/')).reverse
    else head
  (String.mk head, String.mk tail)

/-- `posixpath.join(a, b)` for one component. -/
def os_path_join (a b : String) : String :=
  if pyStartsWith b "/" then b
  else if a = "" ∨ pyEndsWith a "/" then a ++ b
  else a ++ "/" ++ b

/-- `posixpath.isabs`. -/
def os_path_isabs (p : String) : Bool := pyStartsWith p "/"

/-- `posixpath.normpath(p)`: collapse empty and `.` components, resolve
`..` against preceding components, keep the leading slashes (two kept as
two, any other number as one). -/
def os_path_normpath (p : String) : String :=
  if p = "" then "." else
  let initialSlashes : Nat :=
    if pyStartsWith p "/" then
      if pyStartsWith p "//" ∧ ¬ pyStartsWith p "///" then 2 else 1
    else 0
  let comps := p.toList.splitOnP (· = '/')
  let newComps := comps.foldl (fun acc comp =>
    if comp = [] ∨ comp = ['.'] then acc
    else if comp ≠ ['.', '.'] ∨ (initialSlashes = 0 ∧ acc = [])
        ∨ acc.getLast? = some ['.', '.'] then acc ++ [comp]
    else if acc ≠ [] then acc.dropLast
    else acc) []
  let joined := List.replicate initialSlashes '/' ++ List.intercalate ['/'] newComps
  if joined = [] then "." else String.mk joined

/-- Python's `str.replace(old, new)` applied for each `(old, new)` of the
dict in iteration order (the loop `for key, val in replace.items()`). -/
def applyReplacements (replace : List (String × String)) (path : String) :
    String :=
  replace.foldl (fun p kv => pyReplace p kv.1 kv.2) path

/-- `copy_cmc_inputs.valid_path(file_containing_path, xml, tag)`: read the
first `tag` element's text, return `none` for an absent or blank path, and
otherwise try in order: the path as given; with the substitutions applied
(when the dict is non-empty, i.e. truthy); with backslashes turned to
forward slashes; then, joined to `file_containing_path`'s directory and
normalised, the current path as-is, left-stripped, and right-stripped.
The first candidate that exists is returned; an exception is raised only
after all six fail. -/
def valid_path (pexists : String → Bool) (replace : List (String × String))
    (file_containing_path : String) (xml : Xml) (tag : String) :
    Except PyErr (Option String) :=
  match findall tag xml with
  | [] => .error .indexError
  | e :: _ =>
    match e.textOf with
    | none => .ok none
    | some path0 =>
      if pyLStrip path0 = "" then .ok none
      else if pexists path0 then .ok (some path0)
      else
        let path1 := if replace ≠ [] then applyReplacements replace path0 else path0
        if pexists path1 then .ok (some path1)
        else
          let path2 := pyReplace path1 "\\" "/"
          if pexists path2 then .ok (some path2)
          else
            let dir := (os_path_split file_containing_path).1
            let cand1 := os_path_normpath (os_path_join dir path2)
            if pexists cand1 then .ok (some cand1)
            else
              let cand2 := os_path_normpath (os_path_join dir (pyLStrip path2))
              if pexists cand2 then .ok (some cand2)
              else
                let cand3 := os_path_normpath (os_path_join dir (pyRStrip path2))
                if pexists cand3 then .ok (some cand3)
                else .error (.exceptionMsg "Paths do not exist.")

/-- The six candidate paths `valid_path` probes, in the order it probes
them: the text as given, then the cumulative transformations (substituted;
backslashes normalised; joined to the referencing file's directory as-is,
left-stripped, right-stripped). -/
def valid_path_candidates (replace : List (String × String))
    (file_containing_path path0 : String) : List String :=
  let path1 := if replace ≠ [] then applyReplacements replace path0 else path0
  let path2 := pyReplace path1 "\\" "/"
  let dir := (os_path_split file_containing_path).1
  [path0, path1, path2,
    os_path_normpath (os_path_join dir path2),
    os_path_normpath (os_path_join dir (pyLStrip path2)),
    os_path_normpath (os_path_join dir (pyRStrip path2))]

/-!
## The weight-adjustment loop: `rra.py`

The tasks file's `CMC_Joint` entries are modelled as the association list of
`(name attribute, weight)` pairs in file order; the parsed `pErr` table as
the list of `(column name, column values)` pairs (`pErr.dtype.names` with
the columns).  `np.rad2deg` multiplies by `180 / π`, an irrational constant,
so the conversion appears as the factor parameter `r2d`.
-/

/-- `np.max(np.abs(column))` for a non-empty column (an empty column would
make `np.max` raise; the claims only concern non-empty columns, for which
seeding the fold with `0` is exact since every `|x|` is non-negative). -/
def maxAbs (data : List ℚ) : ℚ := data.foldl (fun acc x => max acc |x|) 0

/-- The per-column peak error of `max_error` / `min_error` (rra.py lines
56-59): the column's peak absolute value times `100.0` for a `pelvis_t*`
column, else converted to degrees (`r2d` standing for `180 / π`). -/
def errOf (r2d : ℚ) (colname : String) (data : List ℚ) : ℚ :=
  if pyStartsWith colname "pelvis_t" then 100 * maxAbs data
  else r2d * maxAbs data

/-- The per-column error `this_err` computed inside the weight-update loop
(rra.py lines 197-200), written out as the source writes it. -/
def loop_this_err (r2d : ℚ) (colname : String) (data : List ℚ) : ℚ :=
  if pyStartsWith colname "pelvis_t" then 100 * maxAbs data
  else r2d * maxAbs data

/-- `rra.max_error(pErr, task_names)`: fold over the columns keeping the
largest per-column peak error among the tracked columns and its column
name.  `maxerr` starts at `-np.inf` (`⊥` in `WithBot ℚ`); `max_colname`
starts unbound (`none`). -/
def max_error (r2d : ℚ) (pErr : List (String × List ℚ))
    (task_names : List String) : WithBot ℚ × Option String :=
  pErr.foldl (fun acc p =>
    if p.1 ∈ task_names then
      let e := errOf r2d p.1 p.2
      if acc.1 < (e : WithBot ℚ) then ((e : WithBot ℚ), some p.1) else acc
    else acc) (⊥, none)

/-- `rra.min_error(pErr, task_names)`: the smallest per-column peak error
among the tracked columns (each column's value is still its peak over
time), starting from `np.inf` (`⊤` in `WithTop ℚ`). -/
def min_error (r2d : ℚ) (pErr : List (String × List ℚ))
    (task_names : List String) : WithTop ℚ × Option String :=
  pErr.foldl (fun acc p =>
    if p.1 ∈ task_names then
      let e := errOf r2d p.1 p.2
      if (e : WithTop ℚ) < acc.1 then ((e : WithTop ℚ), some p.1) else acc
    else acc) (⊤, none)

/-- `rra.task_weights_from_file(fpath, task_names)`: build the dict of the
file's `CMC_Joint` weights (a later entry overrides an earlier one with the
same name), then order them per `task_names`; a tracked name absent from
the file raises `KeyError`. -/
def task_weights_from_file (fileTasks : List (String × ℚ))
    (task_names : List String) : Except PyErr (List ℚ) :=
  task_names.mapM (fun n =>
    match fileTasks.reverse.lookup n with
    | some w => Except.ok w
    | none => Except.error (.keyError n))

/-- `rra.write_task_weights_to_file(task_weights, tasks_fpath, task_names)`:
every `CMC_Joint` entry of the file whose name is tracked gets the weight
at its index in `task_names`; the others are untouched.  The `%f` decimal
rendering of the value (and `%i` under `do_round`, which
`select_rra_task_weights` never sets) is not modelled — no claim concerns
the file's text formatting. -/
def write_task_weights_to_file (task_weights : List ℚ)
    (fileTasks : List (String × ℚ)) (task_names : List String) :
    List (String × ℚ) :=
  fileTasks.map (fun t =>
    if t.1 ∈ task_names then
      (t.1, task_weights.getD (task_names.indexOf t.1) t.2)
    else t)

/-- rra.py lines 45-49: `all_task_names` iterates over `cmcts.findall(...)`,
but no name `cmcts` is bound in its scope (its parameter is `tasks_fpath`
and no module-level `cmcts` exists), so every call raises `NameError`
before anything else happens. -/
def all_task_names_call : Except PyErr (List String) :=
  .error (.nameError "cmcts")

/-- The batched weight update of one loop iteration (rra.py lines 195-213):
for each tracked column of `pErr` whose peak error is out of range, the
in-memory weight at the column's index in `task_names` is replaced by
`prev_weight + 0.5 * increment * prev_weight`, with `increment` equal to
`this_err - avg_max_err` above the range and `-|avg_max_err - this_err|`
below it.  (The inner `else: raise` branch of the source is unreachable
under the surrounding out-of-range test and is not modelled.) -/
def chooseNewTaskWeights (r2d min_max_err max_max_err avg_max_err : ℚ)
    (task_names : List String) (pErr : List (String × List ℚ))
    (task_weights : List ℚ) : List ℚ :=
  pErr.foldl (fun tw p =>
    if p.1 ∈ task_names then
      let this_err := loop_this_err r2d p.1 p.2
      if this_err > max_max_err ∨ this_err < min_max_err then
        let increment :=
          if this_err > max_max_err then this_err - avg_max_err
          else -|avg_max_err - this_err|
        let i := task_names.indexOf p.1
        let prev_weight := tw.getD i 0
        let new_weight := prev_weight + 0.5 * increment * prev_weight
        tw.set i new_weight
      else tw
    else tw) task_weights

/-- The observable side effects of `select_rra_task_weights`, in program
order: writing the tasks file (with its new contents), shelling out to the
external RRA executable, and saving the diagnostic plot. -/
inductive Event where
  | runRRA
  | writeTasksFile (contents : List (String × ℚ))
  | savePlot
deriving DecidableEq

/-- An argument passed to the Python function `task_weights_from_file`. -/
inductive PyArg where
  | fileArg (fileTasks : List (String × ℚ))
  | namesArg (task_names : List String)
deriving DecidableEq

/-- Python call semantics for `task_weights_from_file`, whose definition
(rra.py line 33) takes exactly two required positional parameters: a call
with any other argument count raises `TypeError` before the body runs. -/
def call_task_weights_from_file (args : List PyArg) : Except PyErr (List ℚ) :=
  if args.length ≠ 2 then
    .error (.typeError "task_weights_from_file() takes exactly 2 arguments")
  else
    match args with
    | [PyArg.fileArg ft, PyArg.namesArg tns] => task_weights_from_file ft tns
    | _ => .error (.typeError "task_weights_from_file: bad argument kinds")

/-- The loop-carried state of `select_rra_task_weights`: the in-memory
weight vector, the tasks file's contents, and the last parsed `pErr`
table. -/
structure LoopState where
  task_weights : List ℚ
  fileTasks : List (String × ℚ)
  pErr : List (String × List ℚ)

/-- One iteration of the `while` body (rra.py lines 188-234): compute the
batched new weights; write them to the tasks file; run the external tool;
save the plot; then re-read the weights via
`task_weights_from_file(tasks_fpath)` — a call with one argument (line
231).  `newPErr` is what a re-read of the regenerated `pErr` file (line
232) would return.  The events are those emitted up to the point the body
stops. -/
def rra_loop_body (r2d min_max_err max_max_err avg_max_err : ℚ)
    (task_names : List String) (newPErr : List (String × List ℚ))
    (st : LoopState) : List Event × Except PyErr LoopState :=
  let task_weights :=
    chooseNewTaskWeights r2d min_max_err max_max_err avg_max_err
      task_names st.pErr st.task_weights
  let newFileTasks :=
    write_task_weights_to_file task_weights st.fileTasks task_names
  ([Event.writeTasksFile newFileTasks, Event.runRRA, Event.savePlot],
    match call_task_weights_from_file [PyArg.fileArg newFileTasks] with
    | .error e => .error e
    | .ok tw2 => .ok ⟨tw2, newFileTasks, newPErr⟩)

/-- The `while` guard (rra.py line 186):
`maxerr > max_max_err or minerr < min_max_err`. -/
def rra_guard (r2d min_max_err max_max_err : ℚ)
    (task_names : List String) (pErr : List (String × List ℚ)) : Bool :=
  decide ((max_max_err : WithBot ℚ) < (max_error r2d pErr task_names).1)
    || decide ((min_error r2d pErr task_names).1 < (min_max_err : WithTop ℚ))

/-- The `while` loop, fuel-bounded: `none` when `fuel` iterations did not
settle it, otherwise the events emitted and the outcome.  `oracle k` is the
`pErr` table the external tool's output parses to at the loop's `k`-th
re-read. -/
def rra_while (r2d min_max_err max_max_err avg_max_err : ℚ)
    (task_names : List String)
    (oracle : Nat → List (String × List ℚ)) :
    Nat → Nat → LoopState → Option (List Event × Except PyErr Unit)
  | 0, _, _ => none
  | fuel + 1, k, st =>
    if rra_guard r2d min_max_err max_max_err task_names st.pErr then
      match rra_loop_body r2d min_max_err max_max_err avg_max_err
          task_names (oracle k) st with
      | (evs, .error e) => some (evs, .error e)
      | (evs, .ok st') =>
        (rra_while r2d min_max_err max_max_err avg_max_err task_names
            oracle fuel (k + 1) st').map (fun r => (evs ++ r.1, r.2))
    else some ([], .ok ())

/-- `rra.select_rra_task_weights`, from the setup parse to the loop
(rra.py lines 134-236).  `setup_fpath` is the setup file's path and
`setupDoc` its parsed tree; `fileTasks` the parsed tasks file;
`pErrExists` whether the `pErr` output already exists (line 179);
`oracle k` the `pErr` table read the `k`-th time (line 182 reads
`oracle 0`, the in-loop re-reads `oracle (k+1)`); `task_names?` the
`task_names` argument (`none` = the documented default).
`task_name_regex_omit` is fixed to its default `None` (no claim concerns
it).  The result is `none` when the fuel ran out, otherwise the events
emitted and the outcome. -/
def select_rra_task_weights_run (r2d min_max_err max_max_err : ℚ)
    (setup_fpath : String) (setupDoc : Xml)
    (fileTasks : List (String × ℚ)) (pErrExists : Bool)
    (oracle : Nat → List (String × List ℚ))
    (task_names? : Option (List String)) (fuel : Nat) :
    Option (List Event × Except PyErr Unit) :=
  -- line 141: rra.findall('.//task_set_file')[0].text.strip()
  match findall "task_set_file" setupDoc with
  | [] => some ([], .error .indexError)
  | e :: _ =>
  match e.textOf with
  | none => some ([], .error .attributeError)
  | some tsp0 =>
  let task_setup_path := pyStrip tsp0
  -- lines 142-145 (note: the source joins to the setup directory when the
  -- path IS absolute; the value is unused downstream in this model, the
  -- tasks file's contents being the parameter `fileTasks`).
  let _tasks_fpath :=
    if ¬ os_path_isabs task_setup_path then task_setup_path
    else os_path_join (os_path_split setup_fpath).1 task_setup_path
  -- lines 147-148
  match (match task_names? with
    | none => all_task_names_call
    | some tns => Except.ok tns) with
  | .error er => some ([], .error er)
  | .ok task_names =>
  -- line 158: rra.findall('.//results_directory')[0].text.strip()
  match findall "results_directory" setupDoc with
  | [] => some ([], .error .indexError)
  | re :: _ =>
  match re.textOf with
  | none => some ([], .error .attributeError)
  | some _ =>
  -- line 159: rra.findall('.//RRATool')[0].attrib['name']
  match findall "RRATool" setupDoc with
  | [] => some ([], .error .indexError)
  | te :: _ =>
  match te.attrsOf.lookup "name" with
  | none => some ([], .error (.keyError "name"))
  | some _ =>
  -- line 167
  let avg_max_err := 0.5 * (min_max_err + max_max_err)
  -- line 177
  match task_weights_from_file fileTasks task_names with
  | .error er => some ([], .error er)
  | .ok task_weights =>
  -- lines 179-181: run RRA once if the pErr output is missing
  let initEvents := if pErrExists then [] else [Event.runRRA]
  -- lines 182-186 and the loop
  (rra_while r2d min_max_err max_max_err avg_max_err task_names
      (fun k => oracle (k + 1)) fuel 0
      ⟨task_weights, fileTasks, oracle 0⟩).map
    (fun r => (initEvents ++ r.1, r.2))

/-!
## Supporting lemmas
-/

theorem getD_set_ne {α : Type} (l : List α) (i j : Nat) (v d : α)
    (h : i ≠ j) : (l.set i v).getD j d = l.getD j d := by
  induction l generalizing i j with
  | nil => simp
  | cons a l ih =>
    cases i with
    | zero =>
      cases j with
      | zero => exact absurd rfl h
      | succ j => simp
    | succ i =>
      cases j with
      | zero => simp
      | succ j =>
        simpa using ih i j (fun hh => h (by rw [hh]))

theorem getD_set_self {α : Type} (l : List α) (i : Nat) (v d : α)
    (hi : i < l.length) : (l.set i v).getD i d = v := by
  induction l generalizing i with
  | nil => simp at hi
  | cons a l ih =>
    cases i with
    | zero => simp
    | succ i => simpa using ih i (by simpa using hi)

/-- A column whose name appears nowhere in `pErr` keeps its weight through
the batched update. -/
theorem chooseNewTaskWeights_getD_of_not_mem
    (r2d mn mx avg : ℚ) (tns : List String) (pErr : List (String × List ℚ))
    (tw : List ℚ) (col : String) (hcol : col ∈ tns)
    (hni : ∀ p ∈ pErr, p.1 ≠ col) :
    (chooseNewTaskWeights r2d mn mx avg tns pErr tw).getD (tns.indexOf col) 0
      = tw.getD (tns.indexOf col) 0 := by
  induction pErr generalizing tw with
  | nil => rfl
  | cons p rest ih =>
    have hpc : p.1 ≠ col := hni p (List.mem_cons_self p rest)
    have hrest : ∀ q ∈ rest, q.1 ≠ col :=
      fun q hq => hni q (List.mem_cons_of_mem p hq)
    show (chooseNewTaskWeights r2d mn mx avg tns rest
        (if p.1 ∈ tns then _ else tw)).getD (tns.indexOf col) 0 = _
    by_cases hptns : p.1 ∈ tns
    · simp only [if_pos hptns]
      by_cases hout : loop_this_err r2d p.1 p.2 > mx ∨ loop_this_err r2d p.1 p.2 < mn
      · rw [if_pos hout, ih _ hrest]
        exact getD_set_ne tw _ _ _ _
          (fun hh => hpc ((List.indexOf_inj hptns hcol).mp hh))
      · rw [if_neg hout, ih _ hrest]
    · simp only [if_neg hptns]
      exact ih tw hrest

/-- Unfolding one column of the batched update. -/
theorem chooseNewTaskWeights_cons (r2d mn mx avg : ℚ) (tns : List String)
    (p : String × List ℚ) (rest : List (String × List ℚ)) (tw : List ℚ) :
    chooseNewTaskWeights r2d mn mx avg tns (p :: rest) tw =
      chooseNewTaskWeights r2d mn mx avg tns rest
        (if p.1 ∈ tns then
          if loop_this_err r2d p.1 p.2 > mx ∨ loop_this_err r2d p.1 p.2 < mn
          then tw.set (tns.indexOf p.1)
            (tw.getD (tns.indexOf p.1) 0
              + 0.5 * (if loop_this_err r2d p.1 p.2 > mx
                  then loop_this_err r2d p.1 p.2 - avg
                  else -|avg - loop_this_err r2d p.1 p.2|)
                * tw.getD (tns.indexOf p.1) 0)
          else tw
        else tw) := rfl

/-- The batched update at a tracked column of `pErr` (the column names
being distinct, as a parsed table's are): the weight at the column's index
is updated per the out-of-range rule, from its value before the
iteration. -/
theorem chooseNewTaskWeights_getD_tracked
    (r2d mn mx avg : ℚ) (tns : List String) (pErr : List (String × List ℚ))
    (tw : List ℚ) (col : String) (data : List ℚ)
    (hnd : (pErr.map Prod.fst).Nodup) (hmem : (col, data) ∈ pErr)
    (hcol : col ∈ tns) :
    (chooseNewTaskWeights r2d mn mx avg tns pErr tw).getD (tns.indexOf col) 0
      = (if loop_this_err r2d col data > mx ∨ loop_this_err r2d col data < mn
        then tw.getD (tns.indexOf col) 0
          + 0.5 * (if loop_this_err r2d col data > mx
              then loop_this_err r2d col data - avg
              else -|avg - loop_this_err r2d col data|)
            * tw.getD (tns.indexOf col) 0
        else tw.getD (tns.indexOf col) 0) := by
  induction pErr generalizing tw with
  | nil => simp at hmem
  | cons p rest ih =>
    obtain ⟨pn, pd⟩ := p
    have hndr : (rest.map Prod.fst).Nodup := (List.nodup_cons.mp hnd).2
    have hpn : pn ∉ rest.map Prod.fst := (List.nodup_cons.mp hnd).1
    rcases List.mem_cons.mp hmem with hhead | htail
    · -- the column is the head entry: its weight is set here and preserved
      -- by the rest of the fold
      have hp1 : pn = col := (Prod.mk.injEq _ _ _ _ |>.mp hhead.symm).1
      have hp2 : pd = data := (Prod.mk.injEq _ _ _ _ |>.mp hhead.symm).2
      rw [hp1] at hpn
      have hrest : ∀ q ∈ rest, q.1 ≠ col := by
        intro q hq hqc
        exact hpn (hqc ▸ List.mem_map_of_mem Prod.fst hq)
      rw [chooseNewTaskWeights_cons]
      simp only [hp1, hp2, if_pos hcol]
      by_cases hout : loop_this_err r2d col data > mx ∨ loop_this_err r2d col data < mn
      · rw [if_pos hout, if_pos hout,
          chooseNewTaskWeights_getD_of_not_mem r2d mn mx avg tns rest _ col hcol hrest]
        by_cases hlen : tns.indexOf col < tw.length
        · rw [getD_set_self _ _ _ _ hlen]
        · rw [List.set_eq_of_length_le (Nat.le_of_not_lt hlen),
            List.getD_eq_default _ _ (Nat.le_of_not_lt hlen)]
          ring
      · rw [if_neg hout, if_neg hout,
          chooseNewTaskWeights_getD_of_not_mem r2d mn mx avg tns rest tw col hcol hrest]
    · -- the column sits further in: the head step cannot touch its index
      have hcmem : col ∈ rest.map Prod.fst := List.mem_map_of_mem Prod.fst htail
      have hcne : pn ≠ col := fun hh => hpn (hh ▸ hcmem)
      rw [chooseNewTaskWeights_cons]
      by_cases hptns : pn ∈ tns
      · by_cases hout : loop_this_err r2d pn pd > mx ∨ loop_this_err r2d pn pd < mn
        · simp only [if_pos hptns, if_pos hout]
          rw [ih _ hndr htail,
            getD_set_ne tw _ _ _ _
              (fun hh => hcne ((List.indexOf_inj hptns hcol).mp hh))]
        · simp only [if_pos hptns, if_neg hout]
          rw [ih tw hndr htail]
      · simp only [if_neg hptns]
        rw [ih tw hndr htail]

theorem ite_lt_eq_max {α : Type} [LinearOrder α] (a e : α) :
    (if a < e then e else a) = max a e := by
  rcases le_or_lt e a with h | h
  · rw [if_neg (not_lt.mpr h), max_eq_left h]
  · rw [if_pos h, max_eq_right (le_of_lt h)]

theorem ite_lt_eq_min {α : Type} [LinearOrder α] (a e : α) :
    (if e < a then e else a) = min a e := by
  rcases le_or_lt a e with h | h
  · rw [if_neg (not_lt.mpr h), min_eq_left h]
  · rw [if_pos h, min_eq_right (le_of_lt h)]

theorem foldl_max_coe_eq_max_maximum (l : List ℚ) (b : WithBot ℚ) :
    l.foldl (fun acc e => max acc ((e : ℚ) : WithBot ℚ)) b = max b l.maximum := by
  induction l generalizing b with
  | nil =>
    rw [List.foldl_nil, List.maximum_nil, max_eq_left bot_le]
  | cons a l ih =>
    rw [List.foldl_cons, ih, List.maximum_cons, ← max_assoc]

theorem foldl_min_coe_eq_min_minimum (l : List ℚ) (b : WithTop ℚ) :
    l.foldl (fun acc e => min acc ((e : ℚ) : WithTop ℚ)) b = min b l.minimum := by
  induction l generalizing b with
  | nil =>
    rw [List.foldl_nil, List.minimum_nil, min_eq_left le_top]
  | cons a l ih =>
    rw [List.foldl_cons, ih, List.minimum_cons, ← min_assoc]

/-- The error value accumulated by `max_error` is the maximum, over the
tracked columns, of the per-column peak error. -/
theorem max_error_fst (r2d : ℚ) (pErr : List (String × List ℚ))
    (tns : List String) :
    (max_error r2d pErr tns).1 =
      ((pErr.filter (fun p => p.1 ∈ tns)).map
        (fun p => errOf r2d p.1 p.2)).maximum := by
  suffices h : ∀ acc : WithBot ℚ × Option String,
      (pErr.foldl (fun acc p =>
        if p.1 ∈ tns then
          if acc.1 < ((errOf r2d p.1 p.2 : ℚ) : WithBot ℚ)
          then (((errOf r2d p.1 p.2 : ℚ) : WithBot ℚ), some p.1) else acc
        else acc) acc).1 =
      max acc.1 (((pErr.filter (fun p => p.1 ∈ tns)).map
        (fun p => errOf r2d p.1 p.2)).maximum) by
    have := h (⊥, none)
    rw [max_eq_right bot_le] at this
    exact this
  induction pErr with
  | nil =>
    intro acc
    rw [List.foldl_nil, List.filter_nil, List.map_nil, List.maximum_nil,
      max_eq_left bot_le]
  | cons p rest ih =>
    intro acc
    by_cases hp : p.1 ∈ tns
    · rw [List.foldl_cons, List.filter_cons_of_pos (by simpa using hp),
        List.map_cons, List.maximum_cons]
      simp only [if_pos hp]
      rw [ih, apply_ite Prod.fst, ite_lt_eq_max, ← max_assoc]
    · rw [List.foldl_cons, List.filter_cons_of_neg (by simpa using hp)]
      simp only [if_neg hp]
      exact ih acc

/-- The error value accumulated by `min_error` is the minimum, over the
tracked columns, of the per-column peak error. -/
theorem min_error_fst (r2d : ℚ) (pErr : List (String × List ℚ))
    (tns : List String) :
    (min_error r2d pErr tns).1 =
      ((pErr.filter (fun p => p.1 ∈ tns)).map
        (fun p => errOf r2d p.1 p.2)).minimum := by
  suffices h : ∀ acc : WithTop ℚ × Option String,
      (pErr.foldl (fun acc p =>
        if p.1 ∈ tns then
          if ((errOf r2d p.1 p.2 : ℚ) : WithTop ℚ) < acc.1
          then (((errOf r2d p.1 p.2 : ℚ) : WithTop ℚ), some p.1) else acc
        else acc) acc).1 =
      min acc.1 (((pErr.filter (fun p => p.1 ∈ tns)).map
        (fun p => errOf r2d p.1 p.2)).minimum) by
    have := h (⊤, none)
    rw [min_eq_right le_top] at this
    exact this
  induction pErr with
  | nil =>
    intro acc
    rw [List.foldl_nil, List.filter_nil, List.map_nil, List.minimum_nil,
      min_eq_left le_top]
  | cons p rest ih =>
    intro acc
    by_cases hp : p.1 ∈ tns
    · rw [List.foldl_cons, List.filter_cons_of_pos (by simpa using hp),
        List.map_cons, List.minimum_cons]
      simp only [if_pos hp]
      rw [ih, apply_ite Prod.fst, ite_lt_eq_min, ← min_assoc]
    · rw [List.foldl_cons, List.filter_cons_of_neg (by simpa using hp)]
      simp only [if_neg hp]
      exact ih acc

theorem le_foldl_maxAbs (l : List ℚ) (b : ℚ) :
    b ≤ l.foldl (fun acc x => max acc |x|) b := by
  induction l generalizing b with
  | nil => exact le_refl b
  | cons a l ih => exact le_trans (le_max_left b |a|) (ih (max b |a|))

theorem abs_le_foldl_maxAbs (l : List ℚ) (b x : ℚ) (hx : x ∈ l) :
    |x| ≤ l.foldl (fun acc x => max acc |x|) b := by
  induction l generalizing b with
  | nil => simp at hx
  | cons a l ih =>
    rcases List.mem_cons.mp hx with h | h
    · exact le_trans (h ▸ le_max_right b |a|) (le_foldl_maxAbs l (max b |a|))
    · exact ih (max b |a|) h

theorem foldl_maxAbs_attained (l : List ℚ) (b : ℚ) :
    l.foldl (fun acc x => max acc |x|) b = b ∨
      l.foldl (fun acc x => max acc |x|) b ∈ l.map (fun x => |x|) := by
  induction l generalizing b with
  | nil => exact Or.inl rfl
  | cons a l ih =>
    rcases ih (max b |a|) with h | h
    · rcases le_total |a| b with hab | hab
      · exact Or.inl (by rw [List.foldl_cons, h, max_eq_left hab])
      · exact Or.inr (by
          rw [List.foldl_cons, h, max_eq_right hab]
          exact List.mem_map_of_mem _ (List.mem_cons_self a l))
    · exact Or.inr (List.mem_cons_of_mem _ h)

/-- Every column value's absolute value is bounded by `maxAbs`. -/
theorem abs_le_maxAbs (data : List ℚ) (x : ℚ) (hx : x ∈ data) :
    |x| ≤ maxAbs data := abs_le_foldl_maxAbs data 0 x hx

/-- For a non-empty column, `maxAbs` is attained: it is one of the
absolute values, i.e. the column's peak absolute value. -/
theorem maxAbs_mem_abs (data : List ℚ) (h : data ≠ []) :
    maxAbs data ∈ data.map (fun x => |x|) := by
  rcases foldl_maxAbs_attained data 0 with h0 | hmem
  · cases data with
    | nil => exact absurd rfl h
    | cons y ys =>
      have hz : maxAbs (y :: ys) = 0 := h0
      have hy : |y| ≤ maxAbs (y :: ys) :=
        abs_le_maxAbs (y :: ys) y (List.mem_cons_self y ys)
      have hy0 : |y| = 0 := le_antisymm (hz ▸ hy) (abs_nonneg y)
      rw [hz, ← hy0]
      exact List.mem_map_of_mem _ (List.mem_cons_self y ys)
  · exact hmem

/-!
## The claims
-/

/-- **C1.** In each iteration of the weight-adjustment loop, every tracked
column whose peak error is out of range gets
`new_weight = old_weight + 0.5 * increment * old_weight`, where
`increment = error - midpoint` when the error is above the range and
`increment = -|midpoint - error|` when below, with
`midpoint = (min_max_err + max_max_err) / 2`; in particular, for error
`2.0`, thresholds `(1.0, 1.5)` and old weight `10.0` the new weight is
`13.75`. -/
theorem C1_weight_update_rule
    (r2d min_max_err max_max_err avg_max_err : ℚ) (task_names : List String)
    (pErr : List (String × List ℚ)) (task_weights : List ℚ)
    (col : String) (data : List ℚ)
    (hnd : (pErr.map Prod.fst).Nodup) (hmem : (col, data) ∈ pErr)
    (hcol : col ∈ task_names)
    (havg : avg_max_err = (min_max_err + max_max_err) / 2)
    (hout : loop_this_err r2d col data > max_max_err ∨
      loop_this_err r2d col data < min_max_err) :
    ((chooseNewTaskWeights r2d min_max_err max_max_err avg_max_err task_names
        pErr task_weights).getD (task_names.indexOf col) 0 =
      task_weights.getD (task_names.indexOf col) 0
        + 0.5 * (if loop_this_err r2d col data > max_max_err
            then loop_this_err r2d col data - (min_max_err + max_max_err) / 2
            else -|(min_max_err + max_max_err) / 2 - loop_this_err r2d col data|)
          * task_weights.getD (task_names.indexOf col) 0) ∧
    chooseNewTaskWeights 1 1 1.5 1.25 ["ankle"] [("ankle", [2])] [10] =
      [13.75] := by
  constructor
  · rw [chooseNewTaskWeights_getD_tracked r2d min_max_err max_max_err
      avg_max_err task_names pErr task_weights col data hnd hmem hcol,
      if_pos hout, havg]
  · with_unfolding_all decide

/-- Witness for C1: the claim's own numeric instance — one tracked column
named `ankle` with peak error `2.0` (degrees), thresholds `(1.0, 1.5)`,
weight `10.0` — satisfies every hypothesis, and the update yields
`13.75`. -/
theorem C1_weight_update_rule_witness :
    chooseNewTaskWeights 1 1 1.5 1.25 ["ankle"] [("ankle", [2])] [10] =
      [13.75] :=
  (C1_weight_update_rule 1 1 1.5 1.25 ["ankle"] [("ankle", [2])] [10]
    "ankle" [2] (by simp) (by simp) (by simp)
    (by with_unfolding_all decide) (by with_unfolding_all decide)).2

/-- **C2.** Within one iteration of `select_rra_task_weights`, every
tracked out-of-range task's weight is updated in the in-memory weight
vector, and only then is the weight file written (once) and the external
tool re-invoked (once): the iteration's events are exactly
`[writeTasksFile (file with every update applied), runRRA, savePlot]`.
The final conjunct is the claim's instance: two tracked columns, one above
range (error 2, weight 10 → 13.75) and one below (error 0.25, weight
10 → 5), both updated in the single file write that precedes the single
re-invocation. -/
theorem C2_batched_update_before_rerun
    (r2d min_max_err max_max_err avg_max_err : ℚ) (task_names : List String)
    (newPErr : List (String × List ℚ)) (st : LoopState) :
    ((rra_loop_body r2d min_max_err max_max_err avg_max_err task_names
        newPErr st).1 =
      [Event.writeTasksFile
        (write_task_weights_to_file
          (chooseNewTaskWeights r2d min_max_err max_max_err avg_max_err
            task_names st.pErr st.task_weights) st.fileTasks task_names),
       Event.runRRA, Event.savePlot]) ∧
    (∀ col data, (st.pErr.map Prod.fst).Nodup → (col, data) ∈ st.pErr →
      col ∈ task_names →
      (loop_this_err r2d col data > max_max_err ∨
        loop_this_err r2d col data < min_max_err) →
      (chooseNewTaskWeights r2d min_max_err max_max_err avg_max_err
          task_names st.pErr st.task_weights).getD
            (task_names.indexOf col) 0 =
        st.task_weights.getD (task_names.indexOf col) 0
          + 0.5 * (if loop_this_err r2d col data > max_max_err
              then loop_this_err r2d col data - avg_max_err
              else -|avg_max_err - loop_this_err r2d col data|)
            * st.task_weights.getD (task_names.indexOf col) 0) ∧
    rra_loop_body 1 1 1.5 1.25 ["a", "b"] []
        ⟨[10, 10], [("a", 10), ("b", 10)], [("a", [2]), ("b", [0.25])]⟩ =
      ([Event.writeTasksFile [("a", 13.75), ("b", 5)], Event.runRRA,
          Event.savePlot],
        .error (.typeError
          "task_weights_from_file() takes exactly 2 arguments")) := by
  refine ⟨rfl, ?_, by with_unfolding_all rfl⟩
  intro col data hnd hmem hcol hout
  rw [chooseNewTaskWeights_getD_tracked r2d min_max_err max_max_err
    avg_max_err task_names st.pErr st.task_weights col data hnd hmem hcol,
    if_pos hout]

/-- **C3.** The per-task peak absolute error used by the convergence loop,
`max_error` and `min_error` is the column's peak absolute value (`maxAbs`
bounds every `|x|` and is attained on a non-empty column), scaled by `100`
for `pelvis_t*` columns and converted to degrees (the `180/π` factor
`r2d`) otherwise; `max_error` and `min_error` return respectively the
maximum and the minimum of that metric over the tracked columns, and the
loop body's `this_err` is the same metric. -/
theorem C3_peak_error_metric (r2d : ℚ) (pErr : List (String × List ℚ))
    (task_names : List String) (colname : String) (data : List ℚ) :
    ((∀ x ∈ data, |x| ≤ maxAbs data) ∧
      (data ≠ [] → maxAbs data ∈ data.map (fun x => |x|))) ∧
    errOf r2d colname data =
      (if pyStartsWith colname "pelvis_t" then 100 * maxAbs data
       else r2d * maxAbs data) ∧
    loop_this_err r2d colname data = errOf r2d colname data ∧
    (max_error r2d pErr task_names).1 =
      ((pErr.filter (fun p => p.1 ∈ task_names)).map
        (fun p => errOf r2d p.1 p.2)).maximum ∧
    (min_error r2d pErr task_names).1 =
      ((pErr.filter (fun p => p.1 ∈ task_names)).map
        (fun p => errOf r2d p.1 p.2)).minimum :=
  ⟨⟨fun x hx => abs_le_maxAbs data x hx, maxAbs_mem_abs data⟩, rfl, rfl,
    max_error_fst r2d pErr task_names, min_error_fst r2d pErr task_names⟩

/-- Witness for C3, at a concrete table: two tracked columns and one
untracked; the tracked maximum is `3`, the tracked minimum `2`, and the
`maxAbs` facts hold for the column `[-3, 1]`. -/
theorem C3_peak_error_metric_witness :
    ((∀ x ∈ ([-3, 1] : List ℚ), |x| ≤ maxAbs [-3, 1]) ∧
      (([-3, 1] : List ℚ) ≠ [] →
        maxAbs [-3, 1] ∈ ([-3, 1] : List ℚ).map (fun x => |x|))) ∧
    errOf 1 "hip" [-3, 1] =
      (if pyStartsWith "hip" "pelvis_t" then 100 * maxAbs [-3, 1]
       else 1 * maxAbs [-3, 1]) ∧
    loop_this_err 1 "hip" [-3, 1] = errOf 1 "hip" [-3, 1] ∧
    (max_error 1 [("hip", [-3, 1]), ("knee", [2]), ("arm", [9])]
        ["hip", "knee"]).1 =
      (([("hip", [-3, 1]), ("knee", [2]), ("arm", [9])].filter
          (fun p => p.1 ∈ ["hip", "knee"])).map
        (fun p => errOf 1 p.1 p.2)).maximum ∧
    (min_error 1 [("hip", [-3, 1]), ("knee", [2]), ("arm", [9])]
        ["hip", "knee"]).1 =
      (([("hip", [-3, 1]), ("knee", [2]), ("arm", [9])].filter
          (fun p => p.1 ∈ ["hip", "knee"])).map
        (fun p => errOf 1 p.1 p.2)).minimum :=
  C3_peak_error_metric 1 [("hip", [-3, 1]), ("knee", [2]), ("arm", [9])]
    ["hip", "knee"] "hip" [-3, 1]

/-- **C4** (the code against the claim's "no upper bound on the number of
iterations exists").  Evaluating the full run at an input whose initial
errors are out of range: the tasks file is written once with the updated
weight, the external tool is invoked exactly once, and the run aborts with
the `TypeError` from the one-argument `task_weights_from_file` call at the
end of the first iteration — the guard is never re-evaluated, so the
iteration count of every execution is capped at one. -/
theorem C4_first_iteration_crash_eval :
    select_rra_task_weights_run 1 0.5 1.5 "run/setup.xml"
      (Xml.node "OpenSimDocument" [] none
        [Xml.node "RRATool" [("name", "gait_rra")] none
          [Xml.node "task_set_file" [] (some "gait_tasks.xml") [],
           Xml.node "results_directory" [] (some "results") []]])
      [("hip", 20)] true (fun _ => [("hip", [3])]) (some ["hip"]) 1000 =
      some ([Event.writeTasksFile [("hip", 40)], Event.runRRA,
          Event.savePlot],
        .error (.typeError
          "task_weights_from_file() takes exactly 2 arguments")) := by
  with_unfolding_all rfl

/-- **C5.** Every execution of the loop body ends in the one-argument call
`task_weights_from_file(tasks_fpath)` (rra.py line 231), which raises
`TypeError` since the function requires two positional arguments; hence
whenever the loop guard holds, the `while` takes exactly one body — it
emits that body's events and stops with the `TypeError`, never completing
an iteration and re-checking the errors, for any remaining fuel. -/
theorem C5_body_always_raises_TypeError
    (r2d min_max_err max_max_err avg_max_err : ℚ) (task_names : List String)
    (newPErr : List (String × List ℚ)) (st : LoopState)
    (oracle : Nat → List (String × List ℚ)) (fuel k : Nat) :
    ((rra_loop_body r2d min_max_err max_max_err avg_max_err task_names
        newPErr st).2 =
      .error (.typeError
        "task_weights_from_file() takes exactly 2 arguments")) ∧
    (rra_guard r2d min_max_err max_max_err task_names st.pErr = true →
      rra_while r2d min_max_err max_max_err avg_max_err task_names oracle
          (fuel + 1) k st =
        some ((rra_loop_body r2d min_max_err max_max_err avg_max_err
            task_names (oracle k) st).1,
          .error (.typeError
            "task_weights_from_file() takes exactly 2 arguments"))) := by
  have hbody : ∀ np : List (String × List ℚ),
      rra_loop_body r2d min_max_err max_max_err avg_max_err task_names
          np st =
        ((rra_loop_body r2d min_max_err max_max_err avg_max_err task_names
            np st).1,
          .error (.typeError
            "task_weights_from_file() takes exactly 2 arguments")) :=
    fun np => rfl
  refine ⟨congrArg Prod.snd (hbody newPErr), fun hg => ?_⟩
  show (if rra_guard r2d min_max_err max_max_err task_names st.pErr then _
    else _) = _
  rw [if_pos hg, hbody (oracle k)]

/-- **C10.** `all_task_names` references `cmcts`, a name never bound in its
scope, so it raises `NameError` unconditionally; hence every invocation of
`select_rra_task_weights` with `task_names = None` (the documented
default) that reaches the `task_names` resolution — i.e. whose setup
document yields a `task_set_file` text — stops with that `NameError`,
before any side effect.  The final conjunct evaluates a concrete such
run. -/
theorem C10_task_names_none_raises_NameError
    (r2d min_max_err max_max_err : ℚ) (setup_fpath : String) (setupDoc : Xml)
    (fileTasks : List (String × ℚ)) (pErrExists : Bool)
    (oracle : Nat → List (String × List ℚ)) (fuel : Nat) :
    (all_task_names_call = .error (.nameError "cmcts")) ∧
    (∀ e rest tsp, findall "task_set_file" setupDoc = e :: rest →
      e.textOf = some tsp →
      select_rra_task_weights_run r2d min_max_err max_max_err setup_fpath
          setupDoc fileTasks pErrExists oracle none fuel =
        some ([], .error (.nameError "cmcts"))) ∧
    select_rra_task_weights_run 1 0.5 1.5 "s.xml"
        (Xml.node "root" [] none
          [Xml.node "task_set_file" [] (some "t.xml") []])
        [("knee", 5)] true (fun _ => []) none 3 =
      some ([], .error (.nameError "cmcts")) := by
  refine ⟨rfl, ?_, by with_unfolding_all rfl⟩
  intro e rest tsp hfind htext
  obtain ⟨et, ea, etx, ec⟩ := e
  simp only [Xml.textOf] at htext
  subst htext
  unfold select_rra_task_weights_run
  rw [hfind]
  rfl

/-- **C6.** For a storage file whose first sentinel-bearing line (a line
containing `'endheader'`) sits at 0-based row `k`, `storage2numpy` takes
row `k + 1` as the whitespace-separated column names and every following
row as whitespace-delimited numeric data, and the result is indexable by
column name.  (The rows after the sentinel are assumed non-blank, as
`np.genfromtxt` silently skips blank rows.) -/
theorem C6_sentinel_delimited_parse
    (parseFloat : String → ℚ) (lines : List String) (k : Nat)
    (lk nameLine : String)
    (hk : lines.get? k = some lk)
    (hsent : containsSub "endheader" lk = true)
    (hfirst : ∀ j, j < k → ∀ lj, lines.get? j = some lj →
      containsSub "endheader" lj = false)
    (hname : lines.get? (k + 1) = some nameLine)
    (hnb : ∀ l ∈ lines.drop (k + 1), wsTokens l ≠ []) :
    storage2numpy parseFloat lines =
      .ok ⟨wsTokens nameLine,
        (lines.drop (k + 2)).map (fun l => (wsTokens l).map parseFloat)⟩ ∧
    ∀ name ∈ wsTokens nameLine,
      ∃ c, StoData.col
        ⟨wsTokens nameLine,
          (lines.drop (k + 2)).map (fun l => (wsTokens l).map parseFloat)⟩
        name = some c := by
  have hidx : endheaderIndex lines = some k :=
    findIdx?_eq_some_of_first (fun l => containsSub "endheader" l) lines k lk
      hk hsent hfirst
  obtain ⟨hlt, _⟩ := List.get?_eq_some.mp hname
  have hget : lines[k + 1] = nameLine := by
    obtain ⟨h, hv⟩ := List.getElem?_eq_some.mp
      (by rw [← List.get?_eq_getElem?]; exact hname)
    exact hv
  have hdrop : lines.drop (k + 1) = nameLine :: lines.drop (k + 2) := by
    rw [List.drop_eq_getElem_cons hlt, hget]
  have hfilter : (lines.drop (k + 1)).filter (fun l => wsTokens l ≠ []) =
      lines.drop (k + 1) :=
    List.filter_eq_self.mpr (fun a ha => decide_eq_true (hnb a ha))
  constructor
  · unfold storage2numpy
    rw [hidx]
    show (match (lines.drop (k + 1)).filter (fun l => wsTokens l ≠ []) with
      | [] => Except.error (PyErr.exceptionMsg "genfromtxt: no data")
      | nameLine :: dataLines =>
        Except.ok (⟨wsTokens nameLine,
          dataLines.map (fun l => (wsTokens l).map parseFloat)⟩ : StoData)) = _
    rw [hfilter, hdrop]
  · intro name hn
    cases hio : (wsTokens nameLine).indexOf? name with
    | none =>
      have := List.indexOf?_eq_none_iff.mp hio name hn
      simp at this
    | some j =>
      refine ⟨((lines.drop (k + 2)).map
        (fun l => (wsTokens l).map parseFloat)).map (fun r => r.getD j 0), ?_⟩
      unfold StoData.col
      rw [hio]
      rfl

/-- Witness for C6: a three-line storage file whose sentinel is its first
line; the names row is `t a`, the single data row parses to one row of two
entries, and both names index a column. -/
theorem C6_sentinel_delimited_parse_witness :
    storage2numpy parseFloat0 ["something endheader", "t a", "1 2"] =
      .ok ⟨wsTokens "t a",
        (["something endheader", "t a", "1 2"].drop 2).map
          (fun l => (wsTokens l).map parseFloat0)⟩ ∧
    ∀ name ∈ wsTokens "t a",
      ∃ c, StoData.col
        ⟨wsTokens "t a",
          (["something endheader", "t a", "1 2"].drop 2).map
            (fun l => (wsTokens l).map parseFloat0)⟩ name = some c :=
  C6_sentinel_delimited_parse parseFloat0
    ["something endheader", "t a", "1 2"] 0 "something endheader" "t a"
    rfl (by decide) (fun j hj => absurd hj (Nat.not_lt_zero j)) rfl
    (by decide)

/-- **C7, counterexample.**  On a file with no sentinel line the claim says
`storage2numpy` "does not raise an error" and silently produces a result;
in fact the scanning loop then never assigns
`line_number_of_line_containing_endheader`, and the `np.genfromtxt` call
raises `NameError` (an unbound local) — the model returns that error, not
an `ok` value. -/
theorem C7_counterexample_no_sentinel_raises :
    storage2numpy parseFloat0 ["time  x", "0.0  1.0"] =
      .error (.nameError "line_number_of_line_containing_endheader") := by
  with_unfolding_all rfl

/-- **C7, amended.** When no line of the input contains `'endheader'`,
`storage2numpy` raises a `NameError` (the line-number local is referenced
before assignment) instead of parsing: the read never succeeds, silently
or otherwise. -/
theorem C7_amended_no_sentinel_NameError (parseFloat : String → ℚ)
    (lines : List String)
    (h : ∀ l ∈ lines, containsSub "endheader" l = false) :
    storage2numpy parseFloat lines =
      .error (.nameError "line_number_of_line_containing_endheader") := by
  unfold storage2numpy endheaderIndex
  rw [List.findIdx?_eq_none_iff.mpr h]

/-- Witness for C7's amended statement: a concrete sentinel-less file. -/
theorem C7_amended_witness :
    storage2numpy parseFloat0 ["no sentinel here", "1 2"] =
      .error (.nameError "line_number_of_line_containing_endheader") :=
  C7_amended_no_sentinel_NameError parseFloat0 ["no sentinel here", "1 2"]
    (by decide)

/-- **C8.** `valid_path` probes, in this exact order and stopping at the
first existing path: the text as given; with the caller's substitutions
applied; with backslashes turned to forward slashes; then the three
variants joined to the referencing file's directory (as-is, left-stripped,
right-stripped); and raises only after all six fail — i.e. it returns the
first existing entry of `valid_path_candidates`. -/
theorem C8_path_resolution_order
    (pexists : String → Bool) (replace : List (String × String))
    (file_containing_path : String) (xml : Xml) (tag : String)
    (e : Xml) (rest : List Xml) (path0 : String)
    (hfind : findall tag xml = e :: rest) (htext : e.textOf = some path0)
    (hnb : pyLStrip path0 ≠ "") :
    valid_path pexists replace file_containing_path xml tag =
      (match (valid_path_candidates replace file_containing_path path0).find?
          pexists with
      | some p => .ok (some p)
      | none => .error (.exceptionMsg "Paths do not exist.")) := by
  obtain ⟨et, ea, etx, ec⟩ := e
  simp only [Xml.textOf] at htext
  subst htext
  simp only [valid_path, hfind, Xml.textOf, valid_path_candidates]
  rw [if_neg hnb]
  generalize (if replace ≠ [] then applyReplacements replace path0
    else path0) = p1
  generalize pyReplace p1 "\\" "/" = p2
  generalize os_path_normpath
    (os_path_join (os_path_split file_containing_path).1 p2) = c1
  generalize os_path_normpath
    (os_path_join (os_path_split file_containing_path).1 (pyLStrip p2)) = c2
  generalize os_path_normpath
    (os_path_join (os_path_split file_containing_path).1 (pyRStrip p2)) = c3
  cases h1 : pexists path0 with
  | true => simp [List.find?_cons, h1]
  | false =>
    simp only [List.find?_cons, h1, Bool.false_eq_true, if_false]
    cases h2 : pexists p1 with
    | true => simp [List.find?_cons, h2]
    | false =>
      simp only [List.find?_cons, h2, Bool.false_eq_true, if_false]
      cases h3 : pexists p2 with
      | true => simp [List.find?_cons, h3]
      | false =>
        simp only [List.find?_cons, h3, Bool.false_eq_true, if_false]
        cases h4 : pexists c1 with
        | true => simp [List.find?_cons, h4]
        | false =>
          simp only [List.find?_cons, h4, Bool.false_eq_true, if_false]
          cases h5 : pexists c2 with
          | true => simp [List.find?_cons, h5]
          | false =>
            simp only [List.find?_cons, h5, Bool.false_eq_true, if_false]
            cases h6 : pexists c3 with
            | true => simp [List.find?_cons, h6]
            | false =>
              simp [List.find?_cons, h6]

/-- Witness for C8: a relative path `t.xml` that exists only next to the
referencing file `d/setup.xml`; the first three candidates fail and the
fourth (directory-joined, normalised) one resolves. -/
theorem C8_path_resolution_order_witness :
    valid_path (fun p => p == "d/t.xml") [] "d/setup.xml"
        (Xml.node "r" [] none [Xml.node "task_set_file" [] (some "t.xml") []])
        "task_set_file" = .ok (some "d/t.xml") := by
  rw [C8_path_resolution_order (fun p => p == "d/t.xml") [] "d/setup.xml"
    (Xml.node "r" [] none [Xml.node "task_set_file" [] (some "t.xml") []])
    "task_set_file" (Xml.node "task_set_file" [] (some "t.xml") []) []
    "t.xml" rfl rfl (by decide)]
  with_unfolding_all rfl

/-- **C9.** The field accessors `xml.findall('.//tag')[0].text` (read) and
`xml.findall('.//tag')[0].text = new` (write) take the first match without
validating the match count: with zero matches both raise `IndexError` from
indexing a zero-length list, and with one or more matches the first is
used without any error — the write rewriting exactly the first match's
text.  The last two conjuncts evaluate a two-match and a zero-match
document. -/
theorem C9_first_match_accessors (doc : Xml) (tag new : String) :
    (findall tag doc = [] →
      xmlFirstText tag doc = .error .indexError ∧
      xmlSetFirstText tag new doc = .error .indexError) ∧
    (∀ e rest, findall tag doc = e :: rest →
      xmlFirstText tag doc = .ok e.textOf ∧
      ∃ doc', xmlSetFirstText tag new doc = .ok doc' ∧
        findall tag doc' = e.withText new :: rest) ∧
    (xmlFirstText "weight" (Xml.node "objects" [] none
        [Xml.node "weight" [] (some "1") [],
         Xml.node "weight" [] (some "2") []]) = .ok (some "1")) ∧
    (xmlFirstText "weight" (Xml.node "objects" [] none []) =
      .error .indexError) := by
  refine ⟨fun h => ⟨?_, ?_⟩, fun e rest h => ⟨?_, ?_⟩, rfl, rfl⟩
  · simp [xmlFirstText, h]
  · simp [xmlSetFirstText, (setFirstText_eq_none_iff tag new doc).mpr h]
  · simp [xmlFirstText, h]
  · obtain ⟨doc', hset, hfind⟩ := findall_setFirstText tag new doc e rest h
    exact ⟨doc', by simp [xmlSetFirstText, hset], hfind⟩
